import Mathlib

/-!
Shallow embedding of the `chewwy` repository's configuration-merge algorithm
(src/cfg.rs, the three-layer merge in src/bin/chewer.rs) and of the
format-resolution and decompression pipeline (src/file_archiver.rs).

Modelling conventions:
* Rust `HashMap<String, T>` is modelled as a `List (String × T)` carrying the
  map's iteration order explicitly (keys unique for tables that came from a
  real map); `HashMap::get` is first-match lookup; `HashMap` built by
  `collect` resolves duplicate keys by letting the last insertion win.
* Rust `HashSet<String>` is modelled as a `List String` carrying iteration
  order.
* `Configure<T>(pub Option<T>)` is a structure holding an `Option`;
  `Configure::c` (an `unwrap` that panics on an unset field) is modelled as
  returning `Option T`, `none` marking the panic; functions that call it
  propagate the panic as an outer `none`.
* Child-process spawning and waiting are modelled by an explicit environment
  (`ProcessEnv`) mapping each formatted command to its spawn and wait outcome.
* `PathBuf`/`Path` values are strings; `Path::components().last()` is
  modelled by splitting on the path separator and discarding empty segments.
-/

set_option maxHeartbeats 1000000

namespace Chewwy

/-- First-set choice on options: keep `a` when set, otherwise take `b`.
Used to state the layered-merge precedence results. -/
def orO {α : Type} (a b : Option α) : Option α :=
  match a with
  | some x => some x
  | none => b

/-- Model of `cfg::Configure<T>(pub Option<T>)`: a configuration value that may
be unset at one layer. -/
structure Configure (T : Type) where
  val : Option T
  deriving DecidableEq

/-- Model of `Configure::c` (`self.0.as_ref().unwrap()`): reading the value;
the result is `none` exactly when the source would panic on an unset field. -/
def Configure.c {T : Type} (c : Configure T) : Option T :=
  c.val

/-- Model of `Configure::merge_value`: if `self` is unset and `other` is set,
copy `other`'s value; otherwise leave `self` unchanged. -/
def Configure.merge_value {T : Type} (s o : Configure T) : Configure T :=
  match s.val, o.val with
  | none, some ov => ⟨some ov⟩
  | _, _ => s

/-- Model of the `cfg::StructMerge` trait. -/
class StructMerge (T : Type) where
  struct_merge : T → T → T

/-- Model of `Configure::merge_struct`: copy wholesale when `self` is unset,
recurse field-by-field when both are set. -/
def Configure.merge_struct {T : Type} [StructMerge T] (s o : Configure T) :
    Configure T :=
  match s.val, o.val with
  | none, some ov => ⟨some ov⟩
  | some sv, some ov => ⟨some (StructMerge.struct_merge sv ov)⟩
  | _, _ => s

/-- Model of `HashMap::get` on a map carried as its entry list. -/
def mapGet {α : Type} (m : List (String × α)) (k : String) : Option α :=
  (m.find? (fun p => p.1 == k)).map (fun p => p.2)

/-- The both-set branch of `Configure::merge_struct_with_identical_key`
(the source's `for (k, v) in s.iter_mut()` loop): walk the higher-precedence
table's entries and struct-merge each value with the lower table's value at
the identical key when that key exists there; entries of the lower table at
keys missing from the higher table are not inserted. -/
def mergeTablesIdenticalKey {T : Type} [StructMerge T]
    (sv ov : List (String × T)) : List (String × T) :=
  sv.map (fun p =>
    match mapGet ov p.1 with
    | none => p
    | some w => (p.1, StructMerge.struct_merge p.2 w))

/-- Model of `Configure::merge_struct_with_identical_key` on
`Configure<HashMap<String, T>>`: when `self` is unset copy `other` wholesale;
when both are set, run the identical-key loop. -/
def Configure.merge_struct_with_identical_key {T : Type} [StructMerge T]
    (s o : Configure (List (String × T))) : Configure (List (String × T)) :=
  match s.val, o.val with
  | none, some ov => ⟨some ov⟩
  | some sv, some ov => ⟨some (mergeTablesIdenticalKey sv ov)⟩
  | _, _ => s

/-- Model of `cfg::Command`: an executable path plus argument templates. -/
structure Command where
  path : String
  args : List String
  deriving DecidableEq

/-- Model of `Command::decompress_command_format`: the process to spawn is the
path together with the args, each arg with `{FILE}` and `{DIR}` substituted. -/
def Command.decompress_command_format (c : Command) (file dir : String) :
    String × List String :=
  (c.path, c.args.map (fun arg =>
    (arg.replace "{FILE}" file).replace "{DIR}" dir))

/-- Model of `cfg::Format`: recognized extension suffixes plus the ordered
decompression command list, each independently configurable. -/
structure Format where
  extensions : Configure (List String)
  decompress : Configure (List Command)
  deriving DecidableEq

/-- Model of `impl StructMerge for Format`: both fields merge as values. -/
def Format.struct_merge (s o : Format) : Format :=
  { extensions := s.extensions.merge_value o.extensions
    decompress := s.decompress.merge_value o.decompress }

instance : StructMerge Format :=
  ⟨Format.struct_merge⟩

/-- Model of `cfg::Directories`: three optional directory paths, each wrapped
in `Configure`. -/
structure Directories where
  search : Configure (Option String)
  output : Configure (Option String)
  archive : Configure (Option String)
  deriving DecidableEq

/-- Model of `impl StructMerge for Directories`. -/
def Directories.struct_merge (s o : Directories) : Directories :=
  { search := s.search.merge_value o.search
    output := s.output.merge_value o.output
    archive := s.archive.merge_value o.archive }

instance : StructMerge Directories :=
  ⟨Directories.struct_merge⟩

/-- Model of `cfg::OutputFileAction`. -/
inductive OutputFileAction
  | DecompressToOutputDir
  deriving DecidableEq

/-- Model of `cfg::CompressedFileAction`. -/
inductive CompressedFileAction
  | MoveToArchiveDir
  | DoNothing
  deriving DecidableEq

/-- Model of `cfg::ManageCommandCfg`. -/
structure ManageCommandCfg where
  smart_decompress_directory : Configure Bool
  search_file : Configure Bool
  output_file_action : Configure OutputFileAction
  compressed_file_action : Configure CompressedFileAction
  directories : Configure Directories
  deriving DecidableEq

/-- Model of `impl StructMerge for ManageCommandCfg`. -/
def ManageCommandCfg.struct_merge (s o : ManageCommandCfg) : ManageCommandCfg :=
  { smart_decompress_directory :=
      s.smart_decompress_directory.merge_value o.smart_decompress_directory
    search_file := s.search_file.merge_value o.search_file
    output_file_action := s.output_file_action.merge_value o.output_file_action
    compressed_file_action :=
      s.compressed_file_action.merge_value o.compressed_file_action
    directories := s.directories.merge_struct o.directories }

instance : StructMerge ManageCommandCfg :=
  ⟨ManageCommandCfg.struct_merge⟩

/-- Model of `cfg::CommandsCfg`. -/
structure CommandsCfg where
  manage : Configure ManageCommandCfg
  deriving DecidableEq

/-- Model of `impl StructMerge for CommandsCfg`. -/
def CommandsCfg.struct_merge (s o : CommandsCfg) : CommandsCfg :=
  { manage := s.manage.merge_struct o.manage }

instance : StructMerge CommandsCfg :=
  ⟨CommandsCfg.struct_merge⟩

/-- Model of `cfg::Cfg`: the format table plus the command configuration. -/
structure Cfg where
  formats : Configure (List (String × Format))
  commands : Configure CommandsCfg
  deriving DecidableEq

/-- Model of `impl StructMerge for Cfg`: the format table merges by identical
key, commands merge structurally. -/
def Cfg.struct_merge (s o : Cfg) : Cfg :=
  { formats := s.formats.merge_struct_with_identical_key o.formats
    commands := s.commands.merge_struct o.commands }

instance : StructMerge Cfg :=
  ⟨Cfg.struct_merge⟩

/-- Model of the three-layer merge performed in `bin/chewer.rs::main`:
the explicit (`arg`) config is merged over the project-root config, and the
result over the built-in default. -/
def main_merge_cfg (root arg : Option Cfg) (default_cfg : Cfg) : Cfg :=
  match root, arg with
  | none, none => default_cfg
  | none, some a => a.struct_merge default_cfg
  | some r, none => r.struct_merge default_cfg
  | some r, some a => (a.struct_merge r).struct_merge default_cfg

/-- Model of `std::io::ErrorKind` restricted to what the source inspects:
`NotFound` versus everything else. -/
inductive IOErrorKind
  | notFound
  | permissionDenied
  | other
  deriving DecidableEq

/-- Model of `std::io::Error`: only the kind is observable to the source. -/
structure IOError where
  kind : IOErrorKind
  deriving DecidableEq

/-- Model of `file_archiver::DecompressError`.  The `command_str` fields of
the source (a `Debug` rendering of the spawned command) are omitted: they are
derived data of the `command` already carried. -/
inductive DecompressError
  | NoFormatAvailable (file : String)
  | NoCommandAvailable (file : String) (found_format_name : String)
  | RunCommandError (command : Command) (ioerr : IOError) (format : String)
  | ChildReturnErrorCode (command : Command) (code : Int) (format : String)
  | ChildError (command : Command) (format : String)
  | ChildWaitReturnError (command : Command) (format : String) (ioerr : IOError)
  deriving DecidableEq

/-- Environment for child-process effects: `spawn` gives each formatted
command (path plus substituted args) its launch outcome, and `wait` the exit
outcome of the child it spawned — `ok (some code)` is a numeric exit status,
`ok none` termination without an exit code (a signal), `error` a failure of
the wait call itself.  `ExitStatus::success()` holds exactly for exit code 0. -/
structure ProcessEnv where
  spawn : String × List String → Except IOError Unit
  wait : String × List String → Except IOError (Option Int)

/-- Model of the spawn loop of `FileArchiver::decompress_to_dir`: try each
configured command in declared order; a `NotFound` launch failure skips to
the next command, any other launch failure is immediately fatal, and the
first successful spawn is kept (the source's `break`). -/
def findChild (env : ProcessEnv) (format_name file_str dir_str : String) :
    List Command → Except DecompressError (Option (Command × (String × List String)))
  | [] => Except.ok none
  | dc :: rest =>
    let command := dc.decompress_command_format file_str dir_str
    match env.spawn command with
    | Except.ok _ => Except.ok (some (dc, command))
    | Except.error e =>
      if e.kind = IOErrorKind.notFound then
        findChild env format_name file_str dir_str rest
      else
        Except.error (DecompressError.RunCommandError dc e format_name)

/-- Model of the wait-and-classify tail of `FileArchiver::decompress_to_dir`:
zero exit status is success, a non-zero numeric exit status is
`ChildReturnErrorCode`, termination without an exit code is `ChildError`,
and a failing wait is `ChildWaitReturnError`. -/
def waitChild (env : ProcessEnv) (format_name : String) (dc : Command)
    (command : String × List String) : Except DecompressError Unit :=
  match env.wait command with
  | Except.ok status =>
    if status = some 0 then Except.ok ()
    else
      match status with
      | some code =>
        Except.error (DecompressError.ChildReturnErrorCode dc code format_name)
      | none => Except.error (DecompressError.ChildError dc format_name)
  | Except.error e =>
    Except.error (DecompressError.ChildWaitReturnError dc format_name e)

/-- Split a character list at every occurrence of `sep`, keeping empty
segments, mirroring Rust's `str::split(char)`. -/
def splitChar (sep : Char) : List Char → List (List Char)
  | [] => [[]]
  | c :: rest =>
    match splitChar sep rest with
    | [] => [[]]
    | hd :: tl =>
      if c = sep then [] :: hd :: tl
      else (c :: hd) :: tl

/-- Model of the inner `file_extension_vec` of `file_archiver::find_format`:
take the path's last component (modelled by splitting on the separator and
discarding empty segments), split it on dots, and keep every segment after
the first. -/
def fileExtensionVec (file : String) : Option (List String) :=
  match ((splitChar '/' file.toList).filter (fun c => !c.isEmpty)).getLast? with
  | none => none
  | some base => some (((splitChar '.' base).drop 1).map (fun l => String.mk l))

/-- Model of `ExtensionFormatCache::new`: flat-map every format to
`(extension, format_name)` pairs in table iteration order; `none` marks the
panic of `format.extensions.c()` on a format whose extensions are unset. -/
def cacheEntries : List (String × Format) → Option (List (String × String))
  | [] => some []
  | (format_name, format) :: rest =>
    match format.extensions.c, cacheEntries rest with
    | some exts, some tail =>
      some ((exts.map (fun extension => (extension, format_name))) ++ tail)
    | _, _ => none

/-- Lookup in the extension cache.  The source collects the pairs into a
`HashMap`, where a later insertion overwrites an earlier one at the same
extension, so the entry that survives is the last one in iteration order. -/
def cacheLookup (entries : List (String × String)) (ext : String) :
    Option String :=
  (entries.reverse.find? (fun p => p.1 == ext)).map (fun p => p.2)

/-- Model of the string re-join inside `find_format`'s loop: the candidate
suffix built from the remaining extension segments joined by dots. -/
def joinDots : List String → String
  | [] => ""
  | [s] => s
  | s :: rest => s ++ "." ++ joinDots rest

/-- Model of `find_format`'s offset loop (`for i in 0..extension_vec.len()`,
slicing `extension_vec[i..]`): try the candidate suffix built from the whole
remaining segment list, and on a cache miss retry from the next offset. -/
def findFormatLoop (entries : List (String × String)) :
    List String → Option String
  | [] => none
  | e :: rest =>
    match cacheLookup entries (joinDots (e :: rest)) with
    | some name => some name
    | none => findFormatLoop entries rest

/-- Model of `file_archiver::find_format`.  The outer `Option` marks the
panics reachable from the source (`extensions.c()` in the cache build, the
`formats[format_name]` index): `some none` is a genuine "no format found",
`some (some (name, format))` a successful resolution. -/
def find_format (formats : List (String × Format)) (file : String) :
    Option (Option (String × Format)) :=
  match fileExtensionVec file with
  | none => some none
  | some extension_vec =>
    match cacheEntries formats with
    | none => none
    | some entries =>
      match findFormatLoop entries extension_vec with
      | none => some none
      | some name =>
        match formats.find? (fun p => p.1 == name) with
        | none => none
        | some p => some (some p)

/-- Model of `FileArchiver::decompress_to_dir`: resolve the format, then run
the spawn loop and classify the outcome of the spawned child.  The outer
`Option` marks the panics reachable from the source (unset `Configure`
fields); `some r` is the function's returned `Result`. -/
def decompress_to_dir (env : ProcessEnv) (formats : List (String × Format))
    (file dir : String) : Option (Except DecompressError Unit) :=
  match find_format formats file with
  | none => none
  | some none => some (Except.error (DecompressError.NoFormatAvailable file))
  | some (some (format_name, format)) =>
    match format.decompress.c with
    | none => none
    | some decompress_commands =>
      some (match findChild env format_name file dir decompress_commands with
        | Except.error e => Except.error e
        | Except.ok none =>
          Except.error (DecompressError.NoCommandAvailable file format_name)
        | Except.ok (some (dc, command)) => waitChild env format_name dc command)

/-! Concrete fixtures used by the claim theorems, taken from the source's
test module (`file_archiver.rs::test::find_format`) and from small
configurations exercising the decompression pipeline. -/

/-- The `first` format of the source's test table: extensions `{"abc"}`. -/
def fmtFirst : Format :=
  { extensions := ⟨some ["abc"]⟩, decompress := ⟨some []⟩ }

/-- The `second` format of the source's test table: extensions `{"abc.def"}`. -/
def fmtSecond : Format :=
  { extensions := ⟨some ["abc.def"]⟩, decompress := ⟨some []⟩ }

/-- The `third` format of the source's test table: extensions `{"def"}`. -/
def fmtThird : Format :=
  { extensions := ⟨some ["def"]⟩, decompress := ⟨some []⟩ }

/-- The format table of the source's `test::find_format`. -/
def testFormats : List (String × Format) :=
  [("first", fmtFirst), ("second", fmtSecond), ("third", fmtThird)]

/-- A format claiming extension `x`, used for the ambiguity scenarios. -/
def fmtX : Format :=
  { extensions := ⟨some ["x"]⟩, decompress := ⟨some []⟩ }

/-- A second distinct format, used for the table-merge scenarios. -/
def fmtY : Format :=
  { extensions := ⟨some ["y"]⟩, decompress := ⟨some [⟨"uny", []⟩]⟩ }

/-- First decompression command of the pipeline fixtures. -/
def cmdA : Command :=
  { path := "unzip1", args := [] }

/-- Second decompression command of the pipeline fixtures. -/
def cmdB : Command :=
  { path := "unzip2", args := [] }

/-- A format for files ending in `gz` with two configured commands. -/
def fmtTar : Format :=
  { extensions := ⟨some ["gz"]⟩, decompress := ⟨some [cmdA, cmdB]⟩ }

/-- A one-format table for the pipeline fixtures. -/
def formats1 : List (String × Format) :=
  [("fmt", fmtTar)]

/-- Environment where every command fails to launch with `NotFound`. -/
def envAllNotFound : ProcessEnv :=
  { spawn := fun _ => Except.error ⟨IOErrorKind.notFound⟩
    wait := fun _ => Except.ok (some 0) }

/-- Environment where every command launches and exits with code 2. -/
def envExitTwo : ProcessEnv :=
  { spawn := fun _ => Except.ok ()
    wait := fun _ => Except.ok (some 2) }

/-- Claim C2: resolution tries the longest remaining dot-joined suffix first
and falls back to shorter suffixes only on a cache miss; on the table
`{first: {"abc"}, second: {"abc.def"}, third: {"def"}}` the file
`a_file.abc` resolves to `first`, `a_file.hiya.abc` to `first`,
`a_file.def` to `third`, and `a_file.abc.def` to `second`. -/
theorem C2_find_format_longest_suffix_first :
    (∀ (entries : List (String × String)) (e : String) (rest : List String)
        (n : String),
      cacheLookup entries (joinDots (e :: rest)) = some n →
      findFormatLoop entries (e :: rest) = some n) ∧
    (∀ (entries : List (String × String)) (e : String) (rest : List String),
      cacheLookup entries (joinDots (e :: rest)) = none →
      findFormatLoop entries (e :: rest) = findFormatLoop entries rest) ∧
    find_format testFormats "a_file.abc" = some (some ("first", fmtFirst)) ∧
    find_format testFormats "a_file.hiya.abc" = some (some ("first", fmtFirst)) ∧
    find_format testFormats "a_file.def" = some (some ("third", fmtThird)) ∧
    find_format testFormats "a_file.abc.def" = some (some ("second", fmtSecond)) := by
  refine ⟨?_, ?_, by decide, by decide, by decide, by decide⟩
  · intro entries e rest n h
    simp [findFormatLoop, h]
  · intro entries e rest h
    simp [findFormatLoop, h]

/-- Witness for C2: the longest-first and fallback branches at concrete
inputs. -/
theorem C2_witness :
    findFormatLoop [("abc", "first")] ["abc"] = some "first" ∧
    findFormatLoop [("zz", "z")] ["abc"] = findFormatLoop [("zz", "z")] [] :=
  ⟨C2_find_format_longest_suffix_first.1 [("abc", "first")] "abc" [] "first"
      (by decide),
    C2_find_format_longest_suffix_first.2.1 [("zz", "z")] "abc" [] (by decide)⟩

/-- Counterexample to claim C6: two tables holding exactly the same
key-to-format entries (`a` and `b` both claiming extension `x`, in the two
iteration orders) resolve `f.x` to different formats, and neither order picks
the lexicographically smaller name `a` whenever `b` comes later in iteration
order — the winner is the format appearing last in map-iteration order, not
the lexicographic one. -/
theorem C6_counterexample :
    find_format [("a", fmtX), ("b", fmtX)] "f.x" = some (some ("b", fmtX)) ∧
    find_format [("b", fmtX), ("a", fmtX)] "f.x" = some (some ("a", fmtX)) ∧
    ("a" : String).toList = ['a'] ∧ ("b" : String).toList = ['b'] ∧
    ('a' : Char) < 'b' := by
  refine ⟨by decide, by decide, by decide, by decide, by decide⟩

/-- Claim C6 as amended: resolution is a pure function of the format table
(with its iteration order) and the file name, so two calls on the same
inputs always agree; a same-length ambiguity is won by the format whose
entry was inserted last in table-iteration order (later insertions overwrite
earlier ones in the extension cache), not by lexicographic name order. -/
theorem C6_resolution_deterministic_amended :
    (∀ (formats : List (String × Format)) (file : String),
      find_format formats file = find_format formats file) ∧
    find_format [("a", fmtX), ("b", fmtX)] "f.x" = some (some ("b", fmtX)) ∧
    find_format [("b", fmtX), ("a", fmtX)] "f.x" = some (some ("a", fmtX)) := by
  refine ⟨fun _ _ => rfl, by decide, by decide⟩

/-! Lemmas about the both-set branch of the keyed format-table merge. -/

/-- The per-key outcome of the identical-key loop: the higher table's value,
struct-merged with the lower table's value at that key when present. -/
def mergedValue {T : Type} [StructMerge T] (v : T) (w? : Option T) : T :=
  match w? with
  | none => v
  | some w => StructMerge.struct_merge v w

/-- On two set tables, `merge_struct_with_identical_key` produces exactly
`mergeTablesIdenticalKey`. -/
theorem merge_identical_key_both_set (s o : Configure (List (String × Format)))
    (sv ov : List (String × Format)) (hs : s.val = some sv)
    (ho : o.val = some ov) :
    (s.merge_struct_with_identical_key o).val =
      some (mergeTablesIdenticalKey sv ov) := by
  cases s with
  | mk sval =>
    cases o with
    | mk oval =>
      cases hs
      cases ho
      rfl

/-- Lookup on a one-longer association list. -/
theorem mapGet_cons {α : Type} (pk : String) (pv : α) (l : List (String × α))
    (k : String) :
    mapGet ((pk, pv) :: l) k = if pk == k then some pv else mapGet l k := by
  cases h : pk == k <;> simp [mapGet, List.find?_cons, h]

/-- Unfolding the identical-key loop one entry at a time. -/
theorem mergeTablesIdenticalKey_cons {T : Type} [StructMerge T] (pk : String)
    (pv : T) (rest ov : List (String × T)) :
    mergeTablesIdenticalKey ((pk, pv) :: rest) ov =
      (pk, mergedValue pv (mapGet ov pk)) :: mergeTablesIdenticalKey rest ov := by
  simp only [mergeTablesIdenticalKey, List.map_cons, mergedValue]
  cases hov : mapGet ov pk <;> simp [hov]

/-- Pointwise description of the merged table: looking up any key gives the
higher table's value, struct-merged with the lower table's value at that key
when present; keys absent from the higher table are absent from the result. -/
theorem mergeTables_mapGet {T : Type} [StructMerge T]
    (sv ov : List (String × T)) (k : String) :
    mapGet (mergeTablesIdenticalKey sv ov) k =
      (mapGet sv k).map (fun v => mergedValue v (mapGet ov k)) := by
  induction sv with
  | nil => rfl
  | cons p rest ih =>
    obtain ⟨pk, pv⟩ := p
    rw [mergeTablesIdenticalKey_cons, mapGet_cons, mapGet_cons]
    by_cases h : pk = k
    · subst h
      simp
    · have hbeq : (pk == k) = false := by
        simp [h]
      simp [hbeq, ih]

/-- Counterexample to claim C1: with the higher-precedence table holding only
key `x` and the lower-precedence table holding only key `y` (both tables
set), the merged table is the higher table unchanged and key `y` — present
in exactly one of the two sources — is absent from the result, so a format
name defined only in the lower-precedence (default) source is lost. -/
theorem C1_counterexample :
    mapGet [("y", fmtY)] "y" = some fmtY ∧
    (Configure.mk (some [("x", fmtX)])).merge_struct_with_identical_key
        ⟨some [("y", fmtY)]⟩ = ⟨some [("x", fmtX)]⟩ ∧
    mapGet [("x", fmtX)] "y" = none := by
  refine ⟨by decide, by decide, by decide⟩

/-- Claim C1 as amended: in the format-table merge of two set tables, every
key of the higher-precedence table survives — struct-merged field-by-field
with the lower table's value when the key is present in both, kept unchanged
when it is present only in the higher table — while a key present only in
the lower-precedence table is dropped (a format name defined only in the
lower layer survives only when the higher layer leaves the whole table
unset). -/
theorem C1_format_table_merge_amended
    (s o : Configure (List (String × Format)))
    (sv ov : List (String × Format)) (hs : s.val = some sv)
    (ho : o.val = some ov) :
    (s.merge_struct_with_identical_key o).val =
      some (mergeTablesIdenticalKey sv ov) ∧
    ∀ k : String,
      mapGet (mergeTablesIdenticalKey sv ov) k =
        (mapGet sv k).map (fun v => mergedValue v (mapGet ov k)) :=
  ⟨merge_identical_key_both_set s o sv ov hs ho,
    fun k => mergeTables_mapGet sv ov k⟩

/-- Witness for C1's amended theorem at a concrete overlapping key. -/
theorem C1_witness :
    mapGet (mergeTablesIdenticalKey [("x", fmtX)] [("x", fmtY)]) "x" =
      (mapGet [("x", fmtX)] "x").map
        (fun v => mergedValue v (mapGet [("x", fmtY)] "x")) :=
  (C1_format_table_merge_amended ⟨some [("x", fmtX)]⟩ ⟨some [("x", fmtY)]⟩
    [("x", fmtX)] [("x", fmtY)] rfl rfl).2 "x"

/-- Claim C7: a key present in the higher-precedence (explicit or root)
table but absent from the lower-precedence (default) table survives the
keyed-map merge with its value unmodified. -/
theorem C7_higher_precedence_key_survives
    (s o : Configure (List (String × Format)))
    (sv ov : List (String × Format)) (k : String) (v : Format)
    (hs : s.val = some sv) (ho : o.val = some ov)
    (hk : mapGet sv k = some v) (habsent : mapGet ov k = none) :
    mapGet ((s.merge_struct_with_identical_key o).val.getD []) k = some v := by
  rw [merge_identical_key_both_set s o sv ov hs ho]
  rw [Option.getD_some, mergeTables_mapGet, hk]
  simp [habsent, mergedValue]

/-- Witness for C7 at a concrete key present only in the higher table. -/
theorem C7_witness :
    mapGet (((Configure.mk (some [("x", fmtX)])).merge_struct_with_identical_key
        ⟨some [("y", fmtY)]⟩).val.getD []) "x" = some fmtX :=
  C7_higher_precedence_key_survives ⟨some [("x", fmtX)]⟩ ⟨some [("y", fmtY)]⟩
    [("x", fmtX)] [("y", fmtY)] "x" fmtX rfl rfl (by decide) (by decide)


/-! Field accessors and precedence lemmas for the three-layer scalar merge. -/

/-- Left identity of `orO`. -/
theorem orO_none_left {α : Type} (b : Option α) : orO none b = b := rfl

/-- Right identity of `orO`. -/
theorem orO_none_right {α : Type} (a : Option α) : orO a none = a := by
  cases a <;> rfl

/-- Associativity of `orO`. -/
theorem orO_assoc {α : Type} (a b c : Option α) :
    orO (orO a b) c = orO a (orO b c) := by
  cases a <;> rfl

/-- `merge_value` is exactly first-set choice on the wrapped options. -/
theorem merge_value_val {T : Type} (s o : Configure T) :
    (s.merge_value o).val = orO s.val o.val := by
  cases s with
  | mk sv =>
    cases o with
    | mk ov => cases sv <;> cases ov <;> rfl

/-- A field viewed through `merge_struct` obeys first-set choice whenever it
does so through the underlying struct merge. -/
theorem merge_struct_bind {T β : Type} [StructMerge T] (g : T → Option β)
    (hg : ∀ sv ov : T,
      g (StructMerge.struct_merge sv ov) = orO (g sv) (g ov))
    (s o : Configure T) :
    ((s.merge_struct o).val.bind g) = orO (s.val.bind g) (o.val.bind g) := by
  cases s with
  | mk sv =>
    cases o with
    | mk ov =>
      cases sv <;> cases ov <;>
        simp [Configure.merge_struct, orO_none_left, orO_none_right, hg]

/-- The smart-decompress flag of a `Cfg`, viewed through the nested layers. -/
def Cfg.smart_decompress_directory_v (c : Cfg) : Option Bool :=
  c.commands.val.bind fun cc => cc.manage.val.bind
    fun m => m.smart_decompress_directory.val

/-- The search-file flag of a `Cfg`, viewed through the nested layers. -/
def Cfg.search_file_v (c : Cfg) : Option Bool :=
  c.commands.val.bind fun cc => cc.manage.val.bind fun m => m.search_file.val

/-- The output-file action of a `Cfg`, viewed through the nested layers. -/
def Cfg.output_file_action_v (c : Cfg) : Option OutputFileAction :=
  c.commands.val.bind fun cc => cc.manage.val.bind
    fun m => m.output_file_action.val

/-- The compressed-file action of a `Cfg`, viewed through the nested layers. -/
def Cfg.compressed_file_action_v (c : Cfg) : Option CompressedFileAction :=
  c.commands.val.bind fun cc => cc.manage.val.bind
    fun m => m.compressed_file_action.val

/-- The search directory path of a `Cfg`, viewed through the nested layers. -/
def Cfg.dir_search_v (c : Cfg) : Option (Option String) :=
  c.commands.val.bind fun cc => cc.manage.val.bind
    fun m => m.directories.val.bind fun d => d.search.val

/-- The output directory path of a `Cfg`, viewed through the nested layers. -/
def Cfg.dir_output_v (c : Cfg) : Option (Option String) :=
  c.commands.val.bind fun cc => cc.manage.val.bind
    fun m => m.directories.val.bind fun d => d.output.val

/-- The archive directory path of a `Cfg`, viewed through the nested layers. -/
def Cfg.dir_archive_v (c : Cfg) : Option (Option String) :=
  c.commands.val.bind fun cc => cc.manage.val.bind
    fun m => m.directories.val.bind fun d => d.archive.val

/-- Precedence of the smart-decompress flag through the manage merge. -/
theorem manage_merge_sdd (s o : ManageCommandCfg) :
    (StructMerge.struct_merge s o : ManageCommandCfg).smart_decompress_directory.val =
      orO s.smart_decompress_directory.val o.smart_decompress_directory.val :=
  merge_value_val s.smart_decompress_directory o.smart_decompress_directory

/-- Precedence of the search-file flag through the manage merge. -/
theorem manage_merge_sf (s o : ManageCommandCfg) :
    (StructMerge.struct_merge s o : ManageCommandCfg).search_file.val =
      orO s.search_file.val o.search_file.val :=
  merge_value_val s.search_file o.search_file

/-- Precedence of the output-file action through the manage merge. -/
theorem manage_merge_ofa (s o : ManageCommandCfg) :
    (StructMerge.struct_merge s o : ManageCommandCfg).output_file_action.val =
      orO s.output_file_action.val o.output_file_action.val :=
  merge_value_val s.output_file_action o.output_file_action

/-- Precedence of the compressed-file action through the manage merge. -/
theorem manage_merge_cfa (s o : ManageCommandCfg) :
    (StructMerge.struct_merge s o : ManageCommandCfg).compressed_file_action.val =
      orO s.compressed_file_action.val o.compressed_file_action.val :=
  merge_value_val s.compressed_file_action o.compressed_file_action

/-- Precedence of the search directory through the directories merge. -/
theorem directories_merge_dir_search (s o : Directories) :
    (StructMerge.struct_merge s o : Directories).search.val =
      orO s.search.val o.search.val :=
  merge_value_val s.search o.search

/-- Precedence of the output directory through the directories merge. -/
theorem directories_merge_dir_output (s o : Directories) :
    (StructMerge.struct_merge s o : Directories).output.val =
      orO s.output.val o.output.val :=
  merge_value_val s.output o.output

/-- Precedence of the archive directory through the directories merge. -/
theorem directories_merge_dir_archive (s o : Directories) :
    (StructMerge.struct_merge s o : Directories).archive.val =
      orO s.archive.val o.archive.val :=
  merge_value_val s.archive o.archive

/-- Precedence of the search directory through the manage merge. -/
theorem manage_merge_dir_search (s o : ManageCommandCfg) :
    ((StructMerge.struct_merge s o : ManageCommandCfg).directories.val.bind
      fun d => d.search.val) =
      orO (s.directories.val.bind fun d => d.search.val)
        (o.directories.val.bind fun d => d.search.val) := by
  show ((s.directories.merge_struct o.directories).val.bind
    fun d => d.search.val) = _
  exact merge_struct_bind (fun d => d.search.val) directories_merge_dir_search
    s.directories o.directories

/-- Precedence of the output directory through the manage merge. -/
theorem manage_merge_dir_output (s o : ManageCommandCfg) :
    ((StructMerge.struct_merge s o : ManageCommandCfg).directories.val.bind
      fun d => d.output.val) =
      orO (s.directories.val.bind fun d => d.output.val)
        (o.directories.val.bind fun d => d.output.val) := by
  show ((s.directories.merge_struct o.directories).val.bind
    fun d => d.output.val) = _
  exact merge_struct_bind (fun d => d.output.val) directories_merge_dir_output
    s.directories o.directories

/-- Precedence of the archive directory through the manage merge. -/
theorem manage_merge_dir_archive (s o : ManageCommandCfg) :
    ((StructMerge.struct_merge s o : ManageCommandCfg).directories.val.bind
      fun d => d.archive.val) =
      orO (s.directories.val.bind fun d => d.archive.val)
        (o.directories.val.bind fun d => d.archive.val) := by
  show ((s.directories.merge_struct o.directories).val.bind
    fun d => d.archive.val) = _
  exact merge_struct_bind (fun d => d.archive.val) directories_merge_dir_archive
    s.directories o.directories

/-- Precedence of the smart-decompress flag through the commands merge. -/
theorem commands_merge_sdd (s o : CommandsCfg) :
    ((StructMerge.struct_merge s o : CommandsCfg).manage.val.bind
      fun m => m.smart_decompress_directory.val) =
      orO (s.manage.val.bind fun m => m.smart_decompress_directory.val)
        (o.manage.val.bind fun m => m.smart_decompress_directory.val) := by
  show ((s.manage.merge_struct o.manage).val.bind fun m => m.smart_decompress_directory.val) = _
  exact merge_struct_bind (fun m => m.smart_decompress_directory.val) manage_merge_sdd
    s.manage o.manage

/-- Precedence of the search-file flag through the commands merge. -/
theorem commands_merge_sf (s o : CommandsCfg) :
    ((StructMerge.struct_merge s o : CommandsCfg).manage.val.bind
      fun m => m.search_file.val) =
      orO (s.manage.val.bind fun m => m.search_file.val)
        (o.manage.val.bind fun m => m.search_file.val) := by
  show ((s.manage.merge_struct o.manage).val.bind fun m => m.search_file.val) = _
  exact merge_struct_bind (fun m => m.search_file.val) manage_merge_sf
    s.manage o.manage

/-- Precedence of the output-file action through the commands merge. -/
theorem commands_merge_ofa (s o : CommandsCfg) :
    ((StructMerge.struct_merge s o : CommandsCfg).manage.val.bind
      fun m => m.output_file_action.val) =
      orO (s.manage.val.bind fun m => m.output_file_action.val)
        (o.manage.val.bind fun m => m.output_file_action.val) := by
  show ((s.manage.merge_struct o.manage).val.bind fun m => m.output_file_action.val) = _
  exact merge_struct_bind (fun m => m.output_file_action.val) manage_merge_ofa
    s.manage o.manage

/-- Precedence of the compressed-file action through the commands merge. -/
theorem commands_merge_cfa (s o : CommandsCfg) :
    ((StructMerge.struct_merge s o : CommandsCfg).manage.val.bind
      fun m => m.compressed_file_action.val) =
      orO (s.manage.val.bind fun m => m.compressed_file_action.val)
        (o.manage.val.bind fun m => m.compressed_file_action.val) := by
  show ((s.manage.merge_struct o.manage).val.bind fun m => m.compressed_file_action.val) = _
  exact merge_struct_bind (fun m => m.compressed_file_action.val) manage_merge_cfa
    s.manage o.manage

/-- Precedence of the search directory through the commands merge. -/
theorem commands_merge_dir_search (s o : CommandsCfg) :
    ((StructMerge.struct_merge s o : CommandsCfg).manage.val.bind
      fun m => m.directories.val.bind fun d => d.search.val) =
      orO (s.manage.val.bind fun m =>
          m.directories.val.bind fun d => d.search.val)
        (o.manage.val.bind fun m =>
          m.directories.val.bind fun d => d.search.val) := by
  show ((s.manage.merge_struct o.manage).val.bind
    fun m => m.directories.val.bind fun d => d.search.val) = _
  exact merge_struct_bind
    (fun m => m.directories.val.bind fun d => d.search.val)
    manage_merge_dir_search s.manage o.manage

/-- Precedence of the output directory through the commands merge. -/
theorem commands_merge_dir_output (s o : CommandsCfg) :
    ((StructMerge.struct_merge s o : CommandsCfg).manage.val.bind
      fun m => m.directories.val.bind fun d => d.output.val) =
      orO (s.manage.val.bind fun m =>
          m.directories.val.bind fun d => d.output.val)
        (o.manage.val.bind fun m =>
          m.directories.val.bind fun d => d.output.val) := by
  show ((s.manage.merge_struct o.manage).val.bind
    fun m => m.directories.val.bind fun d => d.output.val) = _
  exact merge_struct_bind
    (fun m => m.directories.val.bind fun d => d.output.val)
    manage_merge_dir_output s.manage o.manage

/-- Precedence of the archive directory through the commands merge. -/
theorem commands_merge_dir_archive (s o : CommandsCfg) :
    ((StructMerge.struct_merge s o : CommandsCfg).manage.val.bind
      fun m => m.directories.val.bind fun d => d.archive.val) =
      orO (s.manage.val.bind fun m =>
          m.directories.val.bind fun d => d.archive.val)
        (o.manage.val.bind fun m =>
          m.directories.val.bind fun d => d.archive.val) := by
  show ((s.manage.merge_struct o.manage).val.bind
    fun m => m.directories.val.bind fun d => d.archive.val) = _
  exact merge_struct_bind
    (fun m => m.directories.val.bind fun d => d.archive.val)
    manage_merge_dir_archive s.manage o.manage

/-- Precedence of the smart-decompress flag through the full config merge. -/
theorem cfg_merge_sdd (s o : Cfg) :
    (s.struct_merge o).smart_decompress_directory_v = orO s.smart_decompress_directory_v o.smart_decompress_directory_v := by
  show ((s.commands.merge_struct o.commands).val.bind
    fun cc => cc.manage.val.bind fun m => m.smart_decompress_directory.val) = _
  exact merge_struct_bind
    (fun cc => cc.manage.val.bind fun m => m.smart_decompress_directory.val)
    commands_merge_sdd s.commands o.commands

/-- Precedence of the search-file flag through the full config merge. -/
theorem cfg_merge_sf (s o : Cfg) :
    (s.struct_merge o).search_file_v = orO s.search_file_v o.search_file_v := by
  show ((s.commands.merge_struct o.commands).val.bind
    fun cc => cc.manage.val.bind fun m => m.search_file.val) = _
  exact merge_struct_bind
    (fun cc => cc.manage.val.bind fun m => m.search_file.val)
    commands_merge_sf s.commands o.commands

/-- Precedence of the output-file action through the full config merge. -/
theorem cfg_merge_ofa (s o : Cfg) :
    (s.struct_merge o).output_file_action_v = orO s.output_file_action_v o.output_file_action_v := by
  show ((s.commands.merge_struct o.commands).val.bind
    fun cc => cc.manage.val.bind fun m => m.output_file_action.val) = _
  exact merge_struct_bind
    (fun cc => cc.manage.val.bind fun m => m.output_file_action.val)
    commands_merge_ofa s.commands o.commands

/-- Precedence of the compressed-file action through the full config merge. -/
theorem cfg_merge_cfa (s o : Cfg) :
    (s.struct_merge o).compressed_file_action_v = orO s.compressed_file_action_v o.compressed_file_action_v := by
  show ((s.commands.merge_struct o.commands).val.bind
    fun cc => cc.manage.val.bind fun m => m.compressed_file_action.val) = _
  exact merge_struct_bind
    (fun cc => cc.manage.val.bind fun m => m.compressed_file_action.val)
    commands_merge_cfa s.commands o.commands

/-- Precedence of the search directory through the full config merge. -/
theorem cfg_merge_dir_search (s o : Cfg) :
    (s.struct_merge o).dir_search_v = orO s.dir_search_v o.dir_search_v := by
  show ((s.commands.merge_struct o.commands).val.bind
    fun cc => cc.manage.val.bind fun m =>
      m.directories.val.bind fun d => d.search.val) = _
  exact merge_struct_bind
    (fun cc => cc.manage.val.bind fun m =>
      m.directories.val.bind fun d => d.search.val)
    commands_merge_dir_search s.commands o.commands

/-- Precedence of the output directory through the full config merge. -/
theorem cfg_merge_dir_output (s o : Cfg) :
    (s.struct_merge o).dir_output_v = orO s.dir_output_v o.dir_output_v := by
  show ((s.commands.merge_struct o.commands).val.bind
    fun cc => cc.manage.val.bind fun m =>
      m.directories.val.bind fun d => d.output.val) = _
  exact merge_struct_bind
    (fun cc => cc.manage.val.bind fun m =>
      m.directories.val.bind fun d => d.output.val)
    commands_merge_dir_output s.commands o.commands

/-- Precedence of the archive directory through the full config merge. -/
theorem cfg_merge_dir_archive (s o : Cfg) :
    (s.struct_merge o).dir_archive_v = orO s.dir_archive_v o.dir_archive_v := by
  show ((s.commands.merge_struct o.commands).val.bind
    fun cc => cc.manage.val.bind fun m =>
      m.directories.val.bind fun d => d.archive.val) = _
  exact merge_struct_bind
    (fun cc => cc.manage.val.bind fun m =>
      m.directories.val.bind fun d => d.archive.val)
    commands_merge_dir_archive s.commands o.commands

/-- Claim C3: in the three-layer merge the value of every scalar field
(boolean, enum, path) is the one from the first layer, in explicit, root,
default order, that has the field set, and merging nothing over the default
leaves it unchanged. -/
theorem C3_scalar_merge_precedence (root arg : Option Cfg) (D : Cfg) :
    main_merge_cfg none none D = D ∧
    (main_merge_cfg root arg D).smart_decompress_directory_v =
      orO (arg.bind Cfg.smart_decompress_directory_v)
        (orO (root.bind Cfg.smart_decompress_directory_v)
          D.smart_decompress_directory_v) ∧
    (main_merge_cfg root arg D).search_file_v =
      orO (arg.bind Cfg.search_file_v)
        (orO (root.bind Cfg.search_file_v) D.search_file_v) ∧
    (main_merge_cfg root arg D).output_file_action_v =
      orO (arg.bind Cfg.output_file_action_v)
        (orO (root.bind Cfg.output_file_action_v) D.output_file_action_v) ∧
    (main_merge_cfg root arg D).compressed_file_action_v =
      orO (arg.bind Cfg.compressed_file_action_v)
        (orO (root.bind Cfg.compressed_file_action_v)
          D.compressed_file_action_v) ∧
    (main_merge_cfg root arg D).dir_search_v =
      orO (arg.bind Cfg.dir_search_v)
        (orO (root.bind Cfg.dir_search_v) D.dir_search_v) ∧
    (main_merge_cfg root arg D).dir_output_v =
      orO (arg.bind Cfg.dir_output_v)
        (orO (root.bind Cfg.dir_output_v) D.dir_output_v) ∧
    (main_merge_cfg root arg D).dir_archive_v =
      orO (arg.bind Cfg.dir_archive_v)
        (orO (root.bind Cfg.dir_archive_v) D.dir_archive_v) := by
  refine ⟨rfl, ?_, ?_, ?_, ?_, ?_, ?_, ?_⟩ <;>
    cases root <;> cases arg <;>
      simp [main_merge_cfg, orO_none_left, orO_none_right, orO_assoc,
        cfg_merge_sdd, cfg_merge_sf, cfg_merge_ofa, cfg_merge_cfa,
        cfg_merge_dir_search, cfg_merge_dir_output, cfg_merge_dir_archive]



/-! Full population of every `Configure` field outside the per-format map
values, and its preservation by the three-layer merge. -/

/-- Every `Configure` field of a `Directories` is set. -/
def Directories.fully_populated (d : Directories) : Bool :=
  d.search.val.isSome && d.output.val.isSome && d.archive.val.isSome

/-- Every `Configure` field of a `ManageCommandCfg` is set, recursively. -/
def ManageCommandCfg.fully_populated (m : ManageCommandCfg) : Bool :=
  m.smart_decompress_directory.val.isSome && m.search_file.val.isSome &&
  m.output_file_action.val.isSome && m.compressed_file_action.val.isSome &&
  (match m.directories.val with
   | some d => d.fully_populated
   | none => false)

/-- Every `Configure` field of a `CommandsCfg` is set, recursively. -/
def CommandsCfg.fully_populated (c : CommandsCfg) : Bool :=
  match c.manage.val with
  | some m => m.fully_populated
  | none => false

/-- Every `Configure` field of a `Cfg` outside the per-format map values is
set, recursively. -/
def Cfg.fully_populated (c : Cfg) : Bool :=
  c.formats.val.isSome &&
  (match c.commands.val with
   | some cc => cc.fully_populated
   | none => false)

/-- `merge_value` yields a set field whenever the lower layer's field is set. -/
theorem merge_value_isSome {T : Type} (s o : Configure T)
    (h : o.val.isSome = true) : (s.merge_value o).val.isSome = true := by
  cases s with
  | mk sv =>
    cases o with
    | mk ov => cases sv <;> cases ov <;> simp_all [Configure.merge_value]

/-- The directories merge preserves full population of the lower layer. -/
theorem directories_merge_populated (s o : Directories)
    (h : o.fully_populated = true) :
    (Directories.struct_merge s o).fully_populated = true := by
  simp only [Directories.fully_populated, Bool.and_eq_true] at h ⊢
  exact ⟨⟨merge_value_isSome _ _ h.1.1, merge_value_isSome _ _ h.1.2⟩,
    merge_value_isSome _ _ h.2⟩

/-- The manage merge preserves full population of the lower layer. -/
theorem manage_merge_populated (s o : ManageCommandCfg)
    (h : o.fully_populated = true) :
    (ManageCommandCfg.struct_merge s o).fully_populated = true := by
  simp only [ManageCommandCfg.fully_populated, Bool.and_eq_true] at h ⊢
  obtain ⟨⟨⟨⟨h1, h2⟩, h3⟩, h4⟩, h5⟩ := h
  refine ⟨⟨⟨⟨merge_value_isSome _ _ h1, merge_value_isSome _ _ h2⟩,
    merge_value_isSome _ _ h3⟩, merge_value_isSome _ _ h4⟩, ?_⟩
  cases hod : o.directories.val with
  | none => rw [hod] at h5; exact absurd h5 (by simp)
  | some od =>
    rw [hod] at h5
    replace h5 : od.fully_populated = true := h5
    cases hsd : s.directories.val with
    | none =>
      show (match (s.directories.merge_struct o.directories).val with
        | some d => d.fully_populated
        | none => false) = true
      simp [Configure.merge_struct, hsd, hod, h5]
    | some sd =>
      show (match (s.directories.merge_struct o.directories).val with
        | some d => d.fully_populated
        | none => false) = true
      simp only [Configure.merge_struct, hsd, hod]
      exact directories_merge_populated sd od h5

/-- The commands merge preserves full population of the lower layer. -/
theorem commands_merge_populated (s o : CommandsCfg)
    (h : o.fully_populated = true) :
    (CommandsCfg.struct_merge s o).fully_populated = true := by
  simp only [CommandsCfg.fully_populated] at h ⊢
  cases hom : o.manage.val with
  | none => rw [hom] at h; exact absurd h (by simp)
  | some om =>
    rw [hom] at h
    replace h : om.fully_populated = true := h
    cases hsm : s.manage.val with
    | none =>
      show (match (s.manage.merge_struct o.manage).val with
        | some m => m.fully_populated
        | none => false) = true
      simp [Configure.merge_struct, hsm, hom, h]
    | some sm =>
      show (match (s.manage.merge_struct o.manage).val with
        | some m => m.fully_populated
        | none => false) = true
      simp only [Configure.merge_struct, hsm, hom]
      exact manage_merge_populated sm om h

/-- The whole config merge preserves full population of the lower layer. -/
theorem cfg_merge_populated (s o : Cfg)
    (h : o.fully_populated = true) :
    (Cfg.struct_merge s o).fully_populated = true := by
  simp only [Cfg.fully_populated, Bool.and_eq_true] at h ⊢
  obtain ⟨h1, h2⟩ := h
  constructor
  · cases hsf : s.formats.val with
    | none =>
      cases hof : o.formats.val with
      | none => rw [hof] at h1; exact absurd h1 (by simp)
      | some ofv =>
        show (s.formats.merge_struct_with_identical_key o.formats).val.isSome = true
        simp [Configure.merge_struct_with_identical_key, hsf, hof]
    | some sfv =>
      show (s.formats.merge_struct_with_identical_key o.formats).val.isSome = true
      cases hof : o.formats.val <;>
        simp [Configure.merge_struct_with_identical_key, hsf, hof]
  · cases hoc : o.commands.val with
    | none => rw [hoc] at h2; exact absurd h2 (by simp)
    | some occ =>
      rw [hoc] at h2
      replace h2 : occ.fully_populated = true := h2
      cases hsc : s.commands.val with
      | none =>
        show (match (s.commands.merge_struct o.commands).val with
          | some cc => cc.fully_populated
          | none => false) = true
        simp [Configure.merge_struct, hsc, hoc, h2]
      | some scc =>
        show (match (s.commands.merge_struct o.commands).val with
          | some cc => cc.fully_populated
          | none => false) = true
        simp only [Configure.merge_struct, hsc, hoc]
        exact commands_merge_populated scc occ h2

/-- Claim C8: whenever the default layer is fully populated (every
`Configure` field outside the per-format map values is set), the three-layer
merged configuration is fully populated as well, whatever the optional root
and explicit layers contain. -/
theorem C8_merge_fully_populated (root arg : Option Cfg) (D : Cfg)
    (h : D.fully_populated = true) :
    (main_merge_cfg root arg D).fully_populated = true := by
  cases root with
  | none =>
    cases arg with
    | none => exact h
    | some a => exact cfg_merge_populated a D h
  | some r =>
    cases arg with
    | none => exact cfg_merge_populated r D h
    | some a => exact cfg_merge_populated (a.struct_merge r) D h

/-- A concrete fully populated configuration standing for the built-in
default. -/
def defaultD : Cfg :=
  { formats := ⟨some formats1⟩
    commands := ⟨some
      { manage := ⟨some
        { smart_decompress_directory := ⟨some true⟩
          search_file := ⟨some false⟩
          output_file_action := ⟨some OutputFileAction.DecompressToOutputDir⟩
          compressed_file_action :=
            ⟨some CompressedFileAction.MoveToArchiveDir⟩
          directories := ⟨some
            { search := ⟨some none⟩
              output := ⟨some none⟩
              archive := ⟨some none⟩ }⟩ }⟩ }⟩ }

/-- Witness for C8 at a concrete fully populated default. -/
theorem C8_witness : (main_merge_cfg none none defaultD).fully_populated = true :=
  C8_merge_fully_populated none none defaultD (by decide)



/-! Resolution failure: files whose candidate suffixes match no format. -/

/-- Splitting a list free of the separator yields the singleton. -/
theorem splitChar_no_sep (sep : Char) (l : List Char) (h : sep ∉ l) :
    splitChar sep l = [l] := by
  induction l with
  | nil => rfl
  | cons c rest ih =>
    simp only [List.mem_cons, not_or] at h
    have hcs : ¬c = sep := fun hh => h.1 hh.symm
    rw [splitChar, ih h.2]
    simp [hcs]

/-- A base name with no dot produces an empty extension vector. -/
theorem fileExtensionVec_no_dot (file : String) (hne : file.toList ≠ [])
    (hslash : ('/' : Char) ∉ file.toList) (hdot : ('.' : Char) ∉ file.toList) :
    fileExtensionVec file = some [] := by
  have hfe : file.data.isEmpty = false := by
    cases h : file.data with
    | nil => exact absurd h hne
    | cons a l => rfl
  have hcomps :
      ((splitChar '/' file.toList).filter (fun c => !c.isEmpty)).getLast? =
        some file.toList := by
    rw [splitChar_no_sep _ _ hslash]
    simp [List.filter, hfe]
  unfold fileExtensionVec
  rw [hcomps]
  show some (((splitChar '.' file.toList).drop 1).map (fun l => String.mk l)) =
    some []
  rw [splitChar_no_sep _ _ hdot]
  simp

/-- Claim C9: when the candidate suffixes of a file match no format's
extension set — in particular when the file's base name contains no dot —
resolution returns no format and decompression fails with
`NoFormatAvailable` carrying the file name. -/
theorem C9_no_match_no_format (formats : List (String × Format))
    (entries : List (String × String)) (env : ProcessEnv) (file dir : String)
    (hc : cacheEntries formats = some entries) :
    (∀ extension_vec, fileExtensionVec file = some extension_vec →
      findFormatLoop entries extension_vec = none →
      find_format formats file = some none ∧
      decompress_to_dir env formats file dir =
        some (Except.error (DecompressError.NoFormatAvailable file))) ∧
    (file.toList ≠ [] → ('/' : Char) ∉ file.toList →
      ('.' : Char) ∉ file.toList →
      find_format formats file = some none ∧
      decompress_to_dir env formats file dir =
        some (Except.error (DecompressError.NoFormatAvailable file))) := by
  constructor
  · intro ev hev hloop
    have hf : find_format formats file = some none := by
      simp [find_format, hev, hc, hloop]
    exact ⟨hf, by simp [decompress_to_dir, hf]⟩
  · intro h1 h2 h3
    have hev := fileExtensionVec_no_dot file h1 h2 h3
    have hf : find_format formats file = some none := by
      simp [find_format, hev, hc, findFormatLoop]
    exact ⟨hf, by simp [decompress_to_dir, hf]⟩

/-- Witness for C9 on a dotless file name against the test table. -/
theorem C9_witness :
    find_format testFormats "nodot" = some none ∧
    decompress_to_dir envAllNotFound testFormats "nodot" "out" =
      some (Except.error (DecompressError.NoFormatAvailable "nodot")) :=
  (C9_no_match_no_format testFormats
      [("abc", "first"), ("abc.def", "second"), ("def", "third")]
      envAllNotFound "nodot" "out" rfl).2
    (by decide) (by decide) (by decide)



/-! Command fallback and child-outcome classification. -/

/-- When every command in the list fails to launch with `NotFound`, the spawn
loop ends with no child. -/
theorem findChild_all_notFound (env : ProcessEnv)
    (format_name file_str dir_str : String) (cmds : List Command)
    (h : ∀ c ∈ cmds, ∃ e,
      env.spawn (c.decompress_command_format file_str dir_str) =
        Except.error e ∧ e.kind = IOErrorKind.notFound) :
    findChild env format_name file_str dir_str cmds = Except.ok none := by
  induction cmds with
  | nil => rfl
  | cons c cs ih =>
    obtain ⟨e, hsp, hk⟩ := h c (List.mem_cons_self c cs)
    simp [findChild, hsp, hk]
    exact ih (fun c' hc' => h c' (List.mem_cons_of_mem _ hc'))

/-- Claim C4: the configured commands are attempted in declared order; a
`NotFound` launch failure skips to the next command, any other launch
failure immediately yields `RunCommandError` carrying the offending command
and the underlying error, exhausting the list with `NotFound` failures
yields `NoCommandAvailable`, and once a command spawns no later command is
ever attempted — the result is the wait classification of that child alone,
whatever its exit status. -/
theorem C4_command_fallback (env : ProcessEnv)
    (formats : List (String × Format)) (file dir format_name : String)
    (fmt : Format) (dc : Command) (rest : List Command) (e : IOError)
    (hff : find_format formats file = some (some (format_name, fmt))) :
    (env.spawn (dc.decompress_command_format file dir) = Except.ok () →
      fmt.decompress.c = some (dc :: rest) →
      decompress_to_dir env formats file dir =
        some (waitChild env format_name dc
          (dc.decompress_command_format file dir))) ∧
    (env.spawn (dc.decompress_command_format file dir) = Except.error e →
      e.kind = IOErrorKind.notFound →
      findChild env format_name file dir (dc :: rest) =
        findChild env format_name file dir rest) ∧
    (env.spawn (dc.decompress_command_format file dir) = Except.error e →
      e.kind ≠ IOErrorKind.notFound →
      findChild env format_name file dir (dc :: rest) =
        Except.error (DecompressError.RunCommandError dc e format_name)) ∧
    (∀ cmds : List Command, fmt.decompress.c = some cmds →
      (∀ c ∈ cmds, ∃ e',
        env.spawn (c.decompress_command_format file dir) =
          Except.error e' ∧ e'.kind = IOErrorKind.notFound) →
      decompress_to_dir env formats file dir =
        some (Except.error
          (DecompressError.NoCommandAvailable file format_name))) := by
  refine ⟨?_, ?_, ?_, ?_⟩
  · intro hspawn hcmds
    simp [decompress_to_dir, hff, hcmds, findChild, hspawn]
  · intro hspawn hkind
    simp [findChild, hspawn, hkind]
  · intro hspawn hkind
    simp [findChild, hspawn, hkind]
  · intro cmds hcmds hall
    have hfc := findChild_all_notFound env format_name file dir cmds hall
    simp [decompress_to_dir, hff, hcmds, hfc]

/-- Witness for C4: with both commands of `formats1` absent from the system,
decompression of `f.gz` reports `NoCommandAvailable`. -/
theorem C4_witness :
    decompress_to_dir envAllNotFound formats1 "f.gz" "out" =
      some (Except.error
        (DecompressError.NoCommandAvailable "f.gz" "fmt")) :=
  (C4_command_fallback envAllNotFound formats1 "f.gz" "out" "fmt" fmtTar
      cmdA [cmdB] ⟨IOErrorKind.notFound⟩ (by decide)).2.2.2
    [cmdA, cmdB] (by decide)
    (fun c _ => ⟨⟨IOErrorKind.notFound⟩, rfl, rfl⟩)

/-- Claim C5: after a command launches, the child's outcome is classified
exactly as: zero exit status is success, a non-zero numeric exit status
yields `ChildReturnErrorCode` carrying that code, termination without an
exit code yields `ChildError`, a failing wait yields `ChildWaitReturnError`
carrying the underlying error; concretely a child exiting with code 2 turns
the whole decompression into `ChildReturnErrorCode` with code 2. -/
theorem C5_wait_classification (env : ProcessEnv) (format_name : String)
    (dc : Command) (command : String × List String) (code : Int)
    (e : IOError) :
    (env.wait command = Except.ok (some 0) →
      waitChild env format_name dc command = Except.ok ()) ∧
    (env.wait command = Except.ok (some code) → code ≠ 0 →
      waitChild env format_name dc command =
        Except.error
          (DecompressError.ChildReturnErrorCode dc code format_name)) ∧
    (env.wait command = Except.ok none →
      waitChild env format_name dc command =
        Except.error (DecompressError.ChildError dc format_name)) ∧
    (env.wait command = Except.error e →
      waitChild env format_name dc command =
        Except.error
          (DecompressError.ChildWaitReturnError dc format_name e)) ∧
    decompress_to_dir envExitTwo formats1 "f.gz" "out" =
      some (Except.error
        (DecompressError.ChildReturnErrorCode cmdA 2 "fmt")) := by
  refine ⟨?_, ?_, ?_, ?_, by rfl⟩
  · intro hw
    simp [waitChild, hw]
  · intro hw hne
    simp [waitChild, hw, hne]
  · intro hw
    simp [waitChild, hw]
  · intro hw
    simp [waitChild, hw]

/-- Witness for C5: a child exiting with code 2 under `envExitTwo`. -/
theorem C5_witness :
    waitChild envExitTwo "fmt" cmdA
        (cmdA.decompress_command_format "f.gz" "out") =
      Except.error (DecompressError.ChildReturnErrorCode cmdA 2 "fmt") :=
  (C5_wait_classification envExitTwo "fmt" cmdA
      (cmdA.decompress_command_format "f.gz" "out") 2
      ⟨IOErrorKind.notFound⟩).2.1 rfl (by decide)



/-! Panic freedom of the resolution pipeline on fully populated format
tables. -/

/-- Every format of the table has both its extensions and its decompress
command list set. -/
def formatsPopulated (formats : List (String × Format)) : Bool :=
  formats.all (fun p => p.2.extensions.val.isSome && p.2.decompress.val.isSome)

/-- On a populated table the extension cache builds without panicking. -/
theorem cacheEntries_isSome (formats : List (String × Format))
    (h : formatsPopulated formats = true) :
    (cacheEntries formats).isSome = true := by
  induction formats with
  | nil => rfl
  | cons p rest ih =>
    obtain ⟨name, fmt⟩ := p
    simp only [formatsPopulated, List.all_cons, Bool.and_eq_true] at h
    obtain ⟨⟨hext, _⟩, hrest⟩ := h
    obtain ⟨exts, hexts⟩ := Option.isSome_iff_exists.mp hext
    obtain ⟨tail, htail⟩ := Option.isSome_iff_exists.mp (ih hrest)
    simp [cacheEntries, Configure.c, hexts, htail]

/-- Every name recorded in the cache is the name of some table entry. -/
theorem cacheEntries_name_mem (formats : List (String × Format))
    (entries : List (String × String))
    (hc : cacheEntries formats = some entries) (q : String × String)
    (hq : q ∈ entries) : ∃ f, (q.2, f) ∈ formats := by
  induction formats generalizing entries with
  | nil =>
    rw [cacheEntries] at hc
    cases hc
    simp at hq
  | cons p rest ih =>
    obtain ⟨name, fmt⟩ := p
    cases hexts : fmt.extensions.c with
    | none => simp [cacheEntries, hexts] at hc
    | some exts =>
      cases htail : cacheEntries rest with
      | none => simp [cacheEntries, hexts, htail] at hc
      | some tail =>
        simp only [cacheEntries, hexts, htail] at hc
        cases hc
        rcases List.mem_append.mp hq with hl | hr
        · obtain ⟨e, _, hq2⟩ := List.mem_map.mp hl
          refine ⟨fmt, ?_⟩
          rw [← hq2]
          exact List.mem_cons_self _ _
        · obtain ⟨f, hf⟩ := ih tail htail hr
          exact ⟨f, List.mem_cons_of_mem _ hf⟩

/-- A name returned by the resolution loop appears in the cache. -/
theorem findFormatLoop_mem (entries : List (String × String))
    (ev : List String) (n : String) (h : findFormatLoop entries ev = some n) :
    ∃ e, (e, n) ∈ entries := by
  induction ev with
  | nil => exact absurd h (by simp [findFormatLoop])
  | cons e rest ih =>
    rw [findFormatLoop] at h
    cases hl : cacheLookup entries (joinDots (e :: rest)) with
    | none =>
      rw [hl] at h
      exact ih h
    | some m =>
      rw [hl] at h
      cases h
      unfold cacheLookup at hl
      cases hg : entries.reverse.find? (fun p => p.1 == joinDots (e :: rest)) with
      | none => rw [hg] at hl; cases hl
      | some q =>
        rw [hg] at hl
        have hq : q ∈ entries :=
          List.mem_reverse.mp (List.mem_of_find?_eq_some hg)
        refine ⟨q.1, ?_⟩
        have : q.2 = n := by
          cases hl
          rfl
        rw [← this]
        exact hq

/-- Lookup by key succeeds whenever some entry has that key. -/
theorem find?_key_isSome (formats : List (String × Format)) (n : String)
    (h : ∃ f, (n, f) ∈ formats) :
    (formats.find? (fun p => p.1 == n)).isSome = true := by
  obtain ⟨f, hf⟩ := h
  cases hfind : formats.find? (fun p => p.1 == n) with
  | some _ => rfl
  | none =>
    have := List.find?_eq_none.mp hfind (n, f) hf
    simp at this

/-- A pair returned by resolution is an entry of the table. -/
theorem find_format_mem (formats : List (String × Format)) (file : String)
    (p : String × Format) (h : find_format formats file = some (some p)) :
    p ∈ formats := by
  unfold find_format at h
  split at h
  · cases h
  · split at h
    · cases h
    · split at h
      · cases h
      · split at h
        · cases h
        · cases h
          exact List.mem_of_find?_eq_some (by assumption)

/-- Claim C10: reading an unset `Configure` field via `c` is the modelled
panic, and on a table where every format has both its extensions and its
decompress list set, neither `find_format` nor `decompress_to_dir` ever
reaches a panic. -/
theorem C10_panic_free_when_populated (formats : List (String × Format))
    (file dir : String) (env : ProcessEnv)
    (hpop : formatsPopulated formats = true) :
    (∀ (T : Type) (c : Configure T), c.val = none → c.c = none) ∧
    find_format formats file ≠ none ∧
    decompress_to_dir env formats file dir ≠ none := by
  obtain ⟨entries, hentries⟩ :=
    Option.isSome_iff_exists.mp (cacheEntries_isSome formats hpop)
  have hff : find_format formats file ≠ none := by
    cases hev : fileExtensionVec file with
    | none =>
      unfold find_format
      rw [hev]
      simp
    | some ev =>
      have hval : find_format formats file =
          (match findFormatLoop entries ev with
           | none => some none
           | some name =>
             match formats.find? (fun p => p.1 == name) with
             | none => none
             | some p => some (some p)) := by
        unfold find_format
        rw [hev, hentries]
      rw [hval]
      cases hloop : findFormatLoop entries ev with
      | none => simp
      | some n =>
        obtain ⟨e, he⟩ := findFormatLoop_mem entries ev n hloop
        obtain ⟨f, hnf⟩ :=
          cacheEntries_name_mem formats entries hentries (e, n) he
        obtain ⟨q, hq⟩ :=
          Option.isSome_iff_exists.mp (find?_key_isSome formats n ⟨f, hnf⟩)
        simp [hq]
  refine ⟨fun T c h => h, hff, ?_⟩
  cases hffv : find_format formats file with
  | none => exact absurd hffv hff
  | some r =>
    cases r with
    | none => simp [decompress_to_dir, hffv]
    | some p =>
      obtain ⟨n, fmt⟩ := p
      have hmem : (n, fmt) ∈ formats := find_format_mem formats file _ hffv
      have hpred := List.all_eq_true.mp hpop _ hmem
      simp only [Bool.and_eq_true] at hpred
      obtain ⟨cmds, hcmds⟩ := Option.isSome_iff_exists.mp hpred.2
      simp [decompress_to_dir, hffv, Configure.c, hcmds]

/-- Witness for C10 on the populated test table. -/
theorem C10_witness :
    find_format testFormats "a_file.abc" ≠ none ∧
    decompress_to_dir envAllNotFound testFormats "a_file.abc" "out" ≠ none :=
  ⟨(C10_panic_free_when_populated testFormats "a_file.abc" "out"
      envAllNotFound (by decide)).2.1,
    (C10_panic_free_when_populated testFormats "a_file.abc" "out"
      envAllNotFound (by decide)).2.2⟩


end Chewwy
